import Mathlib

/-!
Verification of the `datatable-body` view (`src/datatable/js/body.js`):
a shallow embedding of the row/cell template assembly and formatting
pipeline, together with theorems checking the natural-language
specification against it.

JavaScript values flowing through the pipeline (record attribute values,
`emptyCellValue`, formatter return values) are embedded as `JSVal`.
Strings are Lean `String`s; JS objects used as string-keyed maps are
association lists with overriding update; the per-build token counter
object is a `String → Option Nat` function.  Mutation is rendered as
explicit state passing.
-/

namespace DTBody

/-- JavaScript values reaching the rendering pipeline. -/
inductive JSVal : Type where
  | undef : JSVal
  | null : JSVal
  | str : String → JSVal
  | num : Int → JSVal
  | bool : Bool → JSVal
  deriving DecidableEq, Repr

/-- JavaScript truthiness for `JSVal`. -/
def JSVal.truthy : JSVal → Bool
  | .undef => false
  | .null => false
  | .str s => s ≠ ""
  | .num n => n ≠ 0
  | .bool b => b

/-- JavaScript string coercion (as applied when a value is concatenated
into markup or escaped). -/
def JSVal.toStr : JSVal → String
  | .undef => "undefined"
  | .null => "null"
  | .str s => s
  | .num n => toString n
  | .bool b => if b then "true" else "false"

/-- Association-list update with override, modelling `obj[k] = v`. -/
def setv : List (String × String) → String → String → List (String × String)
  | [], k, v => [(k, v)]
  | (k', v') :: rest, k, v =>
      if k' = k then (k, v) :: rest else (k', v') :: setv rest k v

/-- Association-list lookup, modelling `obj[k]` (`none` = `undefined`). -/
def lookupv : List (String × String) → String → Option String
  | [], _ => none
  | (k', v') :: rest, k => if k' = k then some v' else lookupv rest k

/-- Lookup in a JS-value attribute map (`data[key]`); an absent key and
an absent property both give `undefined`. -/
def jsGet (data : List (String × JSVal)) : Option String → JSVal
  | none => .undef
  | some k => Option.getD (data.lookup k) JSVal.undef

/-- JS-value attribute-map update with override (`data[k] = v`). -/
def jsSet : List (String × JSVal) → String → JSVal → List (String × JSVal)
  | [], k, v => [(k, v)]
  | (k', v') :: rest, k, v =>
      if k' = k then (k, v) :: rest else (k', v') :: jsSet rest k v

/-!  ### Template substitution (`Y.Lang.sub`)

Modelled from the spec: the repository's `Y.Lang.sub` (aliased
`fromTemplate` in `body.js`) is not under `src/`; per the spec, templates
are "string-valued artifacts with `{token}`-style placeholders" and
substitution replaces each `{name}` with the supplied value for `name`,
leaving the placeholder in place when no value is supplied.  -/

/-- Splits a character list at the first `'}'`: the placeholder name and
the remainder after the brace. -/
def splitName : List Char → Option (List Char × List Char)
  | [] => none
  | c :: rest =>
      if c = '}' then some ([], rest)
      else
        match splitName rest with
        | some (nm, r) => some (c :: nm, r)
        | none => none

theorem splitName_length :
    ∀ {l nm r : List Char}, splitName l = some (nm, r) →
      nm.length + r.length + 1 = l.length := by
  intro l
  induction l with
  | nil => intro nm r h; simp [splitName] at h
  | cons c rest ih =>
      intro nm r h
      by_cases hc : c = '}'
      · simp [splitName, hc] at h
        obtain ⟨h1, h2⟩ := h
        subst h1; subst h2
        simp
      · simp [splitName, hc] at h
        cases hs : splitName rest with
        | none => rw [hs] at h; simp at h
        | some p =>
            obtain ⟨nm', r'⟩ := p
            rw [hs] at h
            simp at h
            obtain ⟨h1, h2⟩ := h
            subst h1; subst h2
            have := ih hs
            simp [List.length] at this ⊢
            omega

theorem splitName_append {nm : List Char} (h : '}' ∉ nm) (r : List Char) :
    splitName (nm ++ '}' :: r) = some (nm, r) := by
  induction nm with
  | nil => simp [splitName]
  | cons c nm' ih =>
      have hc : c ≠ '}' := fun hh => h (hh ▸ List.mem_cons_self c nm')
      have h' : '}' ∉ nm' := fun hh => h (List.mem_cons_of_mem c hh)
      simp [splitName, hc, ih h']

/-- Fuel-driven single pass replacing `{name}` placeholders. -/
def substAux (vals : String → Option String) : Nat → List Char → List Char
  | 0, s => s
  | _ + 1, [] => []
  | fuel + 1, c :: rest =>
      if c = '{' then
        match splitName rest with
        | some (nm, r) =>
            (match vals (String.mk nm) with
             | some v => v.data
             | none => '{' :: (nm ++ ['}'])) ++ substAux vals fuel r
        | none => c :: substAux vals fuel rest
      else c :: substAux vals fuel rest

/-- Placeholder substitution over a character list. -/
def subst (vals : String → Option String) (s : List Char) : List Char :=
  substAux vals s.length s

/-- `Y.Lang.sub`: substitute `{name}` placeholders in a template string. -/
def fromTemplate (s : String) (vals : String → Option String) : String :=
  String.mk (subst vals s.data)

/-- The names of the `{name}` placeholders of a template, in order. -/
def scanAux : Nat → List Char → List String
  | 0, _ => []
  | _ + 1, [] => []
  | fuel + 1, c :: rest =>
      if c = '{' then
        match splitName rest with
        | some (nm, r) => String.mk nm :: scanAux fuel r
        | none => scanAux fuel rest
      else scanAux fuel rest

/-- Placeholder names occurring in a template, in order of occurrence. -/
def scanPH (s : List Char) : List String :=
  scanAux s.length s

theorem substAux_fuel2 (vals : String → Option String) :
    ∀ (f1 f2 : Nat) (s : List Char), s.length ≤ f1 → s.length ≤ f2 →
      substAux vals f1 s = substAux vals f2 s := by
  intro f1
  induction f1 with
  | zero =>
      intro f2 s hs _
      have : s = [] := List.eq_nil_of_length_eq_zero (Nat.le_zero.mp hs)
      subst this
      cases f2 <;> rfl
  | succ f ih =>
      intro f2 s hs hs2
      cases s with
      | nil => cases f2 <;> rfl
      | cons c rest =>
          cases f2 with
          | zero => simp at hs2
          | succ g =>
              simp only [List.length_cons] at hs hs2
              have hrest : rest.length ≤ f := Nat.lt_succ_iff.mp hs
              have hrest2 : rest.length ≤ g := Nat.lt_succ_iff.mp hs2
              by_cases hc : c = '{'
              · subst hc
                cases hsp : splitName rest with
                | none =>
                    simp only [substAux, if_pos rfl, hsp]
                    rw [ih g rest hrest hrest2]
                | some p =>
                    obtain ⟨nm, r⟩ := p
                    have hl := splitName_length hsp
                    have hr : r.length ≤ f := by omega
                    have hr2 : r.length ≤ g := by omega
                    simp only [substAux, if_pos rfl, hsp]
                    rw [ih g r hr hr2]
                    simp
              · simp only [substAux, if_neg hc]
                rw [ih g rest hrest hrest2]

theorem substAux_fuel (vals : String → Option String) (f : Nat)
    (s : List Char) (h : s.length ≤ f) : substAux vals f s = subst vals s :=
  substAux_fuel2 vals f s.length s h le_rfl

theorem scanAux_fuel2 :
    ∀ (f1 f2 : Nat) (s : List Char), s.length ≤ f1 → s.length ≤ f2 →
      scanAux f1 s = scanAux f2 s := by
  intro f1
  induction f1 with
  | zero =>
      intro f2 s hs _
      have : s = [] := List.eq_nil_of_length_eq_zero (Nat.le_zero.mp hs)
      subst this
      cases f2 <;> rfl
  | succ f ih =>
      intro f2 s hs hs2
      cases s with
      | nil => cases f2 <;> rfl
      | cons c rest =>
          cases f2 with
          | zero => simp at hs2
          | succ g =>
              simp only [List.length_cons] at hs hs2
              have hrest : rest.length ≤ f := Nat.lt_succ_iff.mp hs
              have hrest2 : rest.length ≤ g := Nat.lt_succ_iff.mp hs2
              by_cases hc : c = '{'
              · subst hc
                cases hsp : splitName rest with
                | none =>
                    simp only [scanAux, if_pos rfl, hsp]
                    rw [ih g rest hrest hrest2]
                | some p =>
                    obtain ⟨nm, r⟩ := p
                    have hl := splitName_length hsp
                    have hr : r.length ≤ f := by omega
                    have hr2 : r.length ≤ g := by omega
                    simp only [scanAux, if_pos rfl, hsp]
                    rw [ih g r hr hr2]
                    simp
              · simp only [scanAux, if_neg hc]
                rw [ih g rest hrest hrest2]

theorem scanAux_fuel (f : Nat) (s : List Char) (h : s.length ≤ f) :
    scanAux f s = scanPH s :=
  scanAux_fuel2 f s.length s h le_rfl

theorem lookupv_setv (m : List (String × String)) (k v k') :
    lookupv (setv m k v) k' = if k = k' then some v else lookupv m k' := by
  induction m with
  | nil =>
      by_cases h : k = k' <;> simp [setv, lookupv, h]
  | cons p rest ih =>
      obtain ⟨a, b⟩ := p
      by_cases hak : a = k
      · subst hak
        by_cases h : a = k' <;> simp [setv, lookupv, h]
      · by_cases h : a = k'
        · subst h
          have : ¬ k = a := fun hh => hak hh.symm
          simp [setv, lookupv, hak, this]
        · simp [setv, lookupv, hak, h, ih]


theorem subst_cons_ne (vals : String → Option String) {c : Char}
    (hc : c ≠ '{') (s : List Char) :
    subst vals (c :: s) = c :: subst vals s := by
  simp only [subst, List.length_cons, substAux, if_neg hc]

theorem subst_lb (vals : String → Option String) (rest : List Char) :
    subst vals ('{' :: rest) =
      match splitName rest with
      | some (nm, r) =>
          (match vals (String.mk nm) with
           | some v => v.data
           | none => '{' :: (nm ++ ['}'])) ++ subst vals r
      | none => '{' :: subst vals rest := by
  cases hsp : splitName rest with
  | none =>
      simp only [subst, List.length_cons, substAux, if_pos rfl, hsp]
      simp
  | some p =>
      obtain ⟨nm, r⟩ := p
      have hl := splitName_length hsp
      have hr : r.length ≤ rest.length := by omega
      simp only [subst, List.length_cons, substAux, if_pos rfl, hsp]
      simp only [if_true]
      rw [substAux_fuel vals rest.length r hr]
      rfl

theorem subst_placeholder (vals : String → Option String) {nm : List Char}
    (h : '}' ∉ nm) (r : List Char) :
    subst vals ('{' :: (nm ++ '}' :: r)) =
      (match vals (String.mk nm) with
       | some v => v.data
       | none => '{' :: (nm ++ ['}'])) ++ subst vals r := by
  rw [subst_lb, splitName_append h]

theorem subst_append_nolb (vals : String → Option String) {a : List Char}
    (h : '{' ∉ a) (s : List Char) :
    subst vals (a ++ s) = a ++ subst vals s := by
  induction a with
  | nil => rfl
  | cons c a' ih =>
      have hc : c ≠ '{' := fun hh => h (hh ▸ List.mem_cons_self c a')
      have h' : '{' ∉ a' := fun hh => h (List.mem_cons_of_mem c hh)
      simp only [List.cons_append]
      rw [subst_cons_ne vals hc, ih h']

theorem scan_cons_ne {c : Char} (hc : c ≠ '{') (s : List Char) :
    scanPH (c :: s) = scanPH s := by
  simp only [scanPH, List.length_cons, scanAux, if_neg hc]

theorem scan_lb (rest : List Char) :
    scanPH ('{' :: rest) =
      match splitName rest with
      | some (nm, r) => String.mk nm :: scanPH r
      | none => scanPH rest := by
  cases hsp : splitName rest with
  | none =>
      simp only [scanPH, List.length_cons, scanAux, if_pos rfl, hsp]
      simp
  | some p =>
      obtain ⟨nm, r⟩ := p
      have hl := splitName_length hsp
      have hr : r.length ≤ rest.length := by omega
      simp only [scanPH, List.length_cons, scanAux, if_pos rfl, hsp]
      simp only [if_true]
      rw [scanAux_fuel rest.length r hr]
      rfl

theorem scan_placeholder {nm : List Char} (h : '}' ∉ nm) (r : List Char) :
    scanPH ('{' :: (nm ++ '}' :: r)) = String.mk nm :: scanPH r := by
  rw [scan_lb, splitName_append h]

theorem scan_append_nolb {a : List Char} (h : '{' ∉ a) (s : List Char) :
    scanPH (a ++ s) = scanPH s := by
  induction a with
  | nil => rfl
  | cons c a' ih =>
      have hc : c ≠ '{' := fun hh => h (hh ▸ List.mem_cons_self c a')
      have h' : '{' ∉ a' := fun hh => h (List.mem_cons_of_mem c hh)
      simp only [List.cons_append]
      rw [scan_cons_ne hc, ih h']

theorem substAux_agree (vals vals' : String → Option String) :
    ∀ (fuel : Nat) (s : List Char), s.length ≤ fuel →
      (∀ nm ∈ scanAux fuel s, vals nm = vals' nm) →
      substAux vals fuel s = substAux vals' fuel s := by
  intro fuel
  induction fuel with
  | zero => intro s _ _; rfl
  | succ f ih =>
      intro s hs hagree
      cases s with
      | nil => rfl
      | cons c rest =>
          simp only [List.length_cons] at hs
          have hrest : rest.length ≤ f := Nat.lt_succ_iff.mp hs
          by_cases hc : c = '{'
          · subst hc
            cases hsp : splitName rest with
            | none =>
                simp only [substAux, if_pos rfl, hsp]
                rw [ih rest hrest]
                intro nm hnm
                apply hagree
                simp only [scanAux, if_pos rfl, hsp]
                exact hnm
            | some p =>
                obtain ⟨nm, r⟩ := p
                have hl := splitName_length hsp
                have hr : r.length ≤ f := by omega
                have hmem : ∀ x ∈ scanAux f r, vals x = vals' x := by
                  intro x hx
                  apply hagree
                  simp only [scanAux, if_pos rfl, hsp]
                  exact List.mem_cons_of_mem _ hx
                have hhd : vals (String.mk nm) = vals' (String.mk nm) := by
                  apply hagree
                  simp only [scanAux, if_pos rfl, hsp]
                  exact List.mem_cons_self _ _
                simp only [substAux, if_pos rfl, hsp]
                rw [ih r hr hmem, hhd]
                simp
          · simp only [substAux, if_neg hc]
            rw [ih rest hrest]
            intro nm hnm
            apply hagree
            simp only [scanAux, if_neg hc]
            exact hnm

theorem subst_agree (vals vals' : String → Option String) (s : List Char)
    (h : ∀ nm ∈ scanPH s, vals nm = vals' nm) :
    subst vals s = subst vals' s :=
  substAux_agree vals vals' s.length s le_rfl h

theorem fromTemplate_agree (s : String) (vals vals' : String → Option String)
    (h : ∀ nm ∈ scanPH s.data, vals nm = vals' nm) :
    fromTemplate s vals = fromTemplate s vals' := by
  unfold fromTemplate
  rw [subst_agree vals vals' s.data h]

/-!  ### Decimal digits

`_createRowTemplate` disambiguates repeated keys with
`key + (tokens[key]++)`: the numeric counter is coerced to its decimal
string.  `natDigits` is that decimal representation. -/

/-- The decimal digit character for a digit value below ten. -/
def digitChar (n : Nat) : Char := Char.ofNat (48 + n)

def natDigitsAux : Nat → Nat → List Char
  | 0, _ => []
  | fuel + 1, n =>
      if n < 10 then [digitChar n]
      else natDigitsAux fuel (n / 10) ++ [digitChar (n % 10)]

/-- Decimal representation of a natural number (JS number-to-string for
the nonnegative integers the token counter takes). -/
def natDigits (n : Nat) : List Char := natDigitsAux (n + 1) n

theorem natDigitsAux_fuel2 :
    ∀ (f1 f2 n : Nat), n < f1 → n < f2 →
      natDigitsAux f1 n = natDigitsAux f2 n := by
  intro f1
  induction f1 with
  | zero => intro f2 n h _; omega
  | succ f ih =>
      intro f2 n h h2
      cases f2 with
      | zero => omega
      | succ g =>
          by_cases hn : n < 10
          · simp only [natDigitsAux, if_pos hn]
          · have h10 : 10 ≤ n := Nat.le_of_not_lt hn
            have hdiv : n / 10 < n := Nat.div_lt_self (by omega) (by omega)
            simp only [natDigitsAux, if_neg hn]
            rw [ih g (n / 10) (by omega) (by omega)]

theorem natDigits_eq (n : Nat) :
    natDigits n =
      if n < 10 then [digitChar n]
      else natDigits (n / 10) ++ [digitChar (n % 10)] := by
  by_cases hn : n < 10
  · simp only [natDigits, natDigitsAux, if_pos hn]
  · have hdiv : n / 10 < n := Nat.div_lt_self (by omega) (by omega)
    rw [if_neg hn]
    calc natDigits n = natDigitsAux n (n / 10) ++ [digitChar (n % 10)] := by
          simp only [natDigits, natDigitsAux, if_neg hn]
      _ = natDigits (n / 10) ++ [digitChar (n % 10)] := by
          rw [natDigitsAux_fuel2 n (n / 10 + 1) (n / 10) (by omega) (by omega)]
          rfl

theorem natDigits_ne_nil (n : Nat) : natDigits n ≠ [] := by
  rw [natDigits_eq]
  by_cases hn : n < 10 <;> simp [hn]

theorem digitChar_toNat {n : Nat} (h : n < 10) : (digitChar n).toNat = 48 + n := by
  interval_cases n <;> decide

theorem natDigits_digit (n : Nat) :
    ∀ c ∈ natDigits n, 48 ≤ c.toNat ∧ c.toNat ≤ 57 := by
  induction n using Nat.strong_induction_on with
  | _ n ih =>
      intro c hc
      rw [natDigits_eq] at hc
      by_cases hn : n < 10
      · rw [if_pos hn] at hc
        simp at hc
        subst hc
        rw [digitChar_toNat hn]
        omega
      · rw [if_neg hn] at hc
        rcases List.mem_append.mp hc with h1 | h2
        · have hdiv : n / 10 < n := Nat.div_lt_self (by omega) (by omega)
          exact ih (n / 10) hdiv c h1
        · simp at h2
          subst h2
          rw [digitChar_toNat (Nat.mod_lt n (by omega))]
          have := Nat.mod_lt n (show 0 < 10 by omega)
          omega

/-- Reads a digit string back as a number (used only to show the decimal
representation is injective). -/
def undigit (l : List Char) : Nat :=
  l.foldl (fun a c => a * 10 + (c.toNat - 48)) 0

theorem undigit_append_singleton (l : List Char) (c : Char) :
    undigit (l ++ [c]) = undigit l * 10 + (c.toNat - 48) := by
  simp [undigit, List.foldl_append]

theorem undigit_natDigits (n : Nat) : undigit (natDigits n) = n := by
  induction n using Nat.strong_induction_on with
  | _ n ih =>
      rw [natDigits_eq]
      by_cases hn : n < 10
      · rw [if_pos hn]
        simp [undigit, digitChar_toNat hn]
      · have hdiv : n / 10 < n := Nat.div_lt_self (by omega) (by omega)
        rw [if_neg hn, undigit_append_singleton, ih (n / 10) hdiv,
          digitChar_toNat (Nat.mod_lt n (by omega))]
        omega

theorem natDigits_inj {m n : Nat} (h : natDigits m = natDigits n) : m = n := by
  have := undigit_natDigits m
  rw [h, undigit_natDigits] at this
  exact this.symm

theorem natDigits_no_brace (n : Nat) :
    ∀ c ∈ natDigits n, c ≠ '{' ∧ c ≠ '}' := by
  intro c hc
  have hd := natDigits_digit n c hc
  constructor <;> intro he <;> subst he <;> revert hd <;> decide

/-!  ### Data model -/

/-- A record (YUI `Model`): a stable client id plus an attribute map, as
exposed by `getAttrs()` / `get(key)`. -/
structure Record where
  clientId : String
  attrs : List (String × JSVal)

/-- The data-only view of a column configuration handed to formatters as
`o.column`: every data property of the column.  The formatter-function
fields are omitted on this view (a structure cannot contain functions
whose argument type mentions the structure itself). -/
structure ColView where
  key : Option String
  name : Option String
  emptyCellValue : JSVal
  allowHTML : Bool
  headers : List String
  yuid : String
  index : Nat
  renderToken : Option String

/-- The context object `o` passed to a string `formatter`
(body.js lines 510-517). -/
structure FmtCtx where
  value : JSVal
  data : List (String × JSVal)
  record : Record
  column : ColView
  classnames : String
  rowindex : Nat

/-- A column `formatter`: either a template string (substituted over the
context) or a callable transform.  A callable is embedded as a pure
function from the context to the pair of its JS return value and the
context as mutated by the call. -/
inductive Fmt : Type where
  | str : String → Fmt
  | fn : (FmtCtx → JSVal × FmtCtx) → Fmt

/-- The context object passed to a `nodeFormatter` (body.js 362-382).
The `td`/`cell` Node references are abstracted to the cell's current
injected markup. -/
structure NFCtx where
  value : JSVal
  data : List (String × JSVal)
  record : Record
  column : ColView
  rowindex : Nat
  content : String

/-- A `nodeFormatter`: invoked on the context, gives its JS return value
and the content it injected into the cell node. -/
def NodeFmt : Type := NFCtx → JSVal × String

/-- A flattened column configuration object as produced by
`_parseColumns` and annotated in place by `_createRowTemplate`. -/
structure ColDesc where
  key : Option String
  name : Option String
  formatter : Option Fmt
  nodeFormatter : Option NodeFmt
  emptyCellValue : JSVal
  allowHTML : Bool
  headers : List String
  yuid : String
  index : Nat
  renderToken : Option String

/-- The `o.column` view of a flattened column. -/
def ColDesc.view (c : ColDesc) : ColView :=
  { key := c.key, name := c.name, emptyCellValue := c.emptyCellValue,
    allowHTML := c.allowHTML, headers := c.headers, yuid := c.yuid,
    index := c.index, renderToken := c.renderToken }

/-- JS truthiness of an optional string property (`col.key`, `col.name`,
`col._renderToken`): present and nonempty. -/
def strTruthy : Option String → Option String
  | some s => if s = "" then none else some s
  | none => none

/-- JS truthiness of `col.formatter`: an empty template string is falsy,
a function is always truthy. -/
def fmtTruthy : Option Fmt → Option Fmt
  | some (.str s) => if s = "" then none else some (.str s)
  | some (.fn f) => some (.fn f)
  | none => none

/-- The data fields of an unparsed column configuration object. -/
structure ColBase where
  key : Option String
  name : Option String
  formatter : Option Fmt
  nodeFormatter : Option NodeFmt
  emptyCellValue : JSVal
  allowHTML : Bool
  headers : List String
  yuid : String

/-- A (possibly nested) column configuration entry: a string shorthand
or an object, optionally carrying `children`. -/
inductive ColConfig : Type where
  | str : String → ColConfig
  | obj : ColBase → Option (List ColConfig) → ColConfig

/-- `col.key || col.formatter || col.nodeFormatter` (body.js 674): the
column qualifies as a renderable leaf. -/
def ColBase.isLeaf (b : ColBase) : Bool :=
  (strTruthy b.key).isSome || (fmtTruthy b.formatter).isSome ||
    b.nodeFormatter.isSome

/-- `{ key: col }`: the descriptor a string shorthand converts to
(body.js 670-672). -/
def strBase (s : String) : ColBase :=
  { key := some s, name := none, formatter := none, nodeFormatter := none,
    emptyCellValue := .undef, allowHTML := false, headers := [], yuid := "" }

/-- `col.index = columns.length` just before the push (body.js 675). -/
def ColBase.toDesc (b : ColBase) (i : Nat) : ColDesc :=
  { key := b.key, name := b.name, formatter := b.formatter,
    nodeFormatter := b.nodeFormatter, emptyCellValue := b.emptyCellValue,
    allowHTML := b.allowHTML, headers := b.headers, yuid := b.yuid,
    index := i, renderToken := none }

/-- `_parseColumns` (body.js 661-684): depth-first flattening of nested
column configurations into the list of renderable data columns,
assigning each pushed column its `index`. -/
def parseColumns : List ColConfig → List ColDesc → List ColDesc
  | [], columns => columns
  | .str s :: rest, columns =>
      if (strBase s).isLeaf then
        parseColumns rest (columns ++ [(strBase s).toDesc columns.length])
      else parseColumns rest columns
  | .obj b ch :: rest, columns =>
      if b.isLeaf then
        parseColumns rest (columns ++ [b.toDesc columns.length])
      else
        match ch with
        | some l => parseColumns rest (parseColumns l columns)
        | none => parseColumns rest columns
termination_by data _ => sizeOf data

/-- The `isArray(data) && data.length` guard (body.js 666): a non-array
input leaves the working accumulator unchanged. -/
def parseColumnsArg : Option (List ColConfig) → List ColDesc → List ColDesc
  | none, columns => columns
  | some l, columns => parseColumns l columns

/-- Accumulator-free depth-first leaf extraction: the qualifying entries
(truthy `key`, `formatter`, or `nodeFormatter`, after string-shorthand
conversion) in depth-first order; an entry with `children` but no
qualifying property is replaced by its recursively flattened children;
entries with neither contribute nothing. -/
def leaves : List ColConfig → List ColBase
  | [] => []
  | .str s :: rest =>
      (if (strBase s).isLeaf then [strBase s] else []) ++ leaves rest
  | .obj b ch :: rest =>
      (if b.isLeaf then [b]
       else
         match ch with
         | some l => leaves l
         | none => []) ++ leaves rest
termination_by data => sizeOf data

/-- Attach positions `n, n+1, …` as the `index` of each column. -/
def withIdx (n : Nat) : List ColBase → List ColDesc
  | [] => []
  | b :: rest => b.toDesc n :: withIdx (n + 1) rest

theorem withIdx_append (n : Nat) (a b : List ColBase) :
    withIdx n (a ++ b) = withIdx n a ++ withIdx (n + a.length) b := by
  induction a generalizing n with
  | nil => simp [withIdx]
  | cons x a' ih =>
      have hn : n + 1 + a'.length = n + (a'.length + 1) := by omega
      show x.toDesc n :: withIdx (n + 1) (a' ++ b) =
        x.toDesc n :: withIdx (n + 1) a' ++ withIdx (n + (a'.length + 1)) b
      rw [ih (n + 1), hn]
      simp [List.cons_append]

theorem withIdx_length (n : Nat) (a : List ColBase) :
    (withIdx n a).length = a.length := by
  induction a generalizing n with
  | nil => rfl
  | cons x a' ih => simp [withIdx, ih]

theorem withIdx_index :
    ∀ (a : List ColBase) (n i : Nat),
      ((withIdx n a).get? i).map ColDesc.index =
        if i < a.length then some (n + i) else none := by
  intro a
  induction a with
  | nil => intro n i; simp [withIdx]
  | cons x a' ih =>
      intro n i
      cases i with
      | zero => simp [withIdx, ColBase.toDesc]
      | succ j =>
          simp only [withIdx, List.get?_cons_succ, List.length_cons, ih]
          by_cases hj : j < a'.length
          · simp [hj, Nat.lt_succ_iff, Nat.le_of_lt, hj.le]
            omega
          · simp [hj]

theorem parseColumns_eq :
    (d : List ColConfig) → (acc : List ColDesc) →
      parseColumns d acc = acc ++ withIdx acc.length (leaves d)
  | [], acc => by simp [parseColumns, leaves, withIdx]
  | .str s :: rest, acc => by
      by_cases h : (strBase s).isLeaf
      · simp only [parseColumns, h, if_true, leaves]
        rw [parseColumns_eq rest (acc ++ [(strBase s).toDesc acc.length])]
        simp [withIdx, withIdx_append, List.append_assoc]
      · simp only [parseColumns, h, if_false, leaves, Bool.false_eq_true]
        rw [parseColumns_eq rest acc]
        simp [h]
  | .obj b ch :: rest, acc => by
      cases ch with
      | some l =>
          by_cases h : b.isLeaf
          · simp only [parseColumns, h, if_true, leaves]
            rw [parseColumns_eq rest (acc ++ [b.toDesc acc.length])]
            simp [withIdx, withIdx_append, List.append_assoc]
          · simp only [parseColumns, h, if_false, leaves, Bool.false_eq_true]
            rw [parseColumns_eq l acc,
              parseColumns_eq rest (acc ++ withIdx acc.length (leaves l))]
            simp [withIdx_append, withIdx_length, List.append_assoc]
      | none =>
          by_cases h : b.isLeaf
          · simp only [parseColumns, h, if_true, leaves]
            rw [parseColumns_eq rest (acc ++ [b.toDesc acc.length])]
            simp [withIdx, withIdx_append, List.append_assoc]
          · simp only [parseColumns, h, if_false, leaves, Bool.false_eq_true]
            rw [parseColumns_eq rest acc]
            simp
termination_by d _ => sizeOf d

/-!  ### Row template construction (`_createRowTemplate`) -/

/-- `CELL_TEMPLATE` (body.js 95). -/
def CELL_TEMPLATE : String :=
  "<td headers=\"{headers}\" class=\"{classes}\">{content}</td>"

/-- `ROW_TEMPLATE` (body.js 128-131). -/
def ROW_TEMPLATE : String :=
  "<tr id=\"{clientId}\" class=\"{rowClasses}\">{content}</tr>"

/-- `col.name || col._yuid` (body.js 574). -/
def nameFallback (col : ColDesc) : String :=
  match strTruthy col.name with
  | some n => n
  | none => col.yuid

/-- The `{headers}/{classes}/{content}` values substituted into
`CELL_TEMPLATE` for one column (body.js 579-590); a `nodeFormatter`
column has both its content and classes placeholders emptied. -/
def cellVals (cls : Option String → String) (col : ColDesc)
    (token : String) : String → Option String := fun nm =>
  if nm = "content" then
    some (if col.nodeFormatter.isSome then "" else "\x7b" ++ token ++ "\x7d")
  else if nm = "headers" then some (String.intercalate " " col.headers)
  else if nm = "classes" then
    some (if col.nodeFormatter.isSome then ""
          else cls col.key ++ " \x7b" ++ token ++ "-classes\x7d")
  else none

/-- The `_createRowTemplate` loop (body.js 562-593): per column, read or
seed the per-build counter keyed by the column's key to pick the render
token, annotate the column, and emit its cell fragment. -/
def buildCells (cls : Option String → String) :
    List ColDesc → (String → Option Nat) → String × List ColDesc
  | [], _ => ("", [])
  | col :: rest, tokens =>
      let tt : String × (String → Option Nat) :=
        match strTruthy col.key with
        | some key =>
            match tokens key with
            | some n =>
                (key ++ String.mk (natDigits n),
                 fun k => if k = key then some (n + 1) else tokens k)
            | none => (key, fun k => if k = key then some 1 else tokens k)
        | none => (nameFallback col, tokens)
      let col' := { col with renderToken := some tt.1 }
      let cell := fromTemplate CELL_TEMPLATE (cellVals cls col tt.1)
      let r := buildCells cls rest tt.2
      (cell ++ r.1, col' :: r.2)

/-- `_createRowTemplate` (body.js 556-598): build the row template from
the column list and annotate the columns with their `_renderToken`s. -/
def createRowTemplate (cls : Option String → String)
    (cols : List ColDesc) : String × List ColDesc :=
  let r := buildCells cls cols (fun _ => none)
  (fromTemplate ROW_TEMPLATE
    (fun nm => if nm = "content" then some r.1 else none), r.2)

/-!  ### Token characterization -/

/-- The token shape the builder produces: the bare key at count zero,
else the key with the decimal counter value appended. -/
def tokForm (k : String) (c : Nat) : String :=
  if c = 0 then k else k ++ String.mk (natDigits c)

/-- The token assigned to key `k` when the keys in `hist` have already
been processed. -/
def tokenSpec (hist : List String) (k : String) : String :=
  tokForm k (hist.count k)

/-- The tokens for a key sequence, accumulating the processed keys. -/
def mapTokens : List String → List String → List String
  | _, [] => []
  | hist, k :: ks => tokenSpec hist k :: mapTokens (k :: hist) ks

/-- The counter function corresponding to a history of processed keys
(the JS `tokens` object holds the occurrence count, which is nonzero —
hence truthy — exactly when the key has been seen). -/
def countFn (hist : List String) : String → Option Nat := fun k =>
  if hist.count k = 0 then none else some (hist.count k)

/-- The (truthy) key of a column, for columns known to have one. -/
def truthyKey (c : ColDesc) : String := (strTruthy c.key).getD ""

/-- No string of the list extends another string of the list by a
nonempty run of decimal digits.  Under this condition the counter-suffix
disambiguation cannot collide with a literal key. -/
def DigitSuffixFree (ks : List String) : Prop :=
  ∀ a ∈ ks, ∀ b ∈ ks, ∀ t : List Char,
    t ≠ [] → (∀ c ∈ t, 48 ≤ c.toNat ∧ c.toNat ≤ 57) →
    b.data ≠ a.data ++ t

theorem strData_inj {a b : String} (h : a.data = b.data) : a = b := by
  cases a
  cases b
  exact congrArg String.mk h

theorem tokForm_ne {S : List String} (hS : DigitSuffixFree S)
    {k k' : String} (hk : k ∈ S) (hk' : k' ∈ S) {c c' : Nat}
    (hne : k ≠ k' ∨ c ≠ c') : tokForm k c ≠ tokForm k' c' := by
  intro heq
  by_cases h0 : c = 0 <;> by_cases h0' : c' = 0
  · subst h0; subst h0'
    simp only [tokForm, if_pos rfl] at heq
    rcases hne with h | h
    · exact h heq
    · exact h rfl
  · subst h0
    simp only [tokForm, if_pos rfl, if_neg h0'] at heq
    have hdata : k.data = k'.data ++ natDigits c' := by
      have := congrArg String.data heq
      rwa [String.data_append] at this
    exact hS k' hk' k hk (natDigits c') (natDigits_ne_nil c')
      (natDigits_digit c') hdata
  · subst h0'
    simp only [tokForm, if_neg h0, if_pos rfl] at heq
    have hdata : k'.data = k.data ++ natDigits c := by
      have := congrArg String.data heq.symm
      rwa [String.data_append] at this
    exact hS k hk k' hk' (natDigits c) (natDigits_ne_nil c)
      (natDigits_digit c) hdata
  · simp only [tokForm, if_neg h0, if_neg h0'] at heq
    have hdata : k.data ++ natDigits c = k'.data ++ natDigits c' := by
      have := congrArg String.data heq
      rwa [String.data_append, String.data_append] at this
    rcases List.append_eq_append_iff.mp hdata with ⟨t, ht1, ht2⟩ | ⟨t, ht1, ht2⟩
    · cases t with
      | nil =>
          rw [List.append_nil] at ht1
          have hkk : k = k' := strData_inj ht1.symm
          have hcc : c = c' := natDigits_inj ht2
          rcases hne with h | h
          · exact h hkk
          · exact h hcc
      | cons x xs =>
          have hmem : ∀ ch ∈ (x :: xs), 48 ≤ ch.toNat ∧ ch.toNat ≤ 57 := by
            intro ch hch
            apply natDigits_digit c
            rw [ht2]
            exact List.mem_append_left _ hch
          exact hS k hk k' hk' (x :: xs) (by simp) hmem ht1
    · cases t with
      | nil =>
          rw [List.append_nil] at ht1
          have hkk : k = k' := strData_inj ht1
          have hcc : c' = c := natDigits_inj ht2
          rcases hne with h | h
          · exact h hkk
          · exact h hcc.symm
      | cons x xs =>
          have hmem : ∀ ch ∈ (x :: xs), 48 ≤ ch.toNat ∧ ch.toNat ≤ 57 := by
            intro ch hch
            apply natDigits_digit c'
            rw [ht2]
            exact List.mem_append_left _ hch
          exact hS k' hk' k hk (x :: xs) (by simp) hmem ht1

theorem countFn_fresh {hist : List String} {key : String}
    (hcnt : hist.count key = 0) :
    (fun k => if k = key then some 1 else countFn hist k) =
      countFn (key :: hist) := by
  funext k
  by_cases hkk : k = key
  · subst hkk
    simp [countFn, List.count_cons_self, hcnt]
  · have : (key :: hist).count k = hist.count k := by
      rw [List.count_cons_of_ne hkk]
    simp [countFn, hkk, this]

theorem countFn_bump {hist : List String} {key : String} {n : Nat}
    (hcnt : hist.count key = n) (_hn : n ≠ 0) :
    (fun k => if k = key then some (n + 1) else countFn hist k) =
      countFn (key :: hist) := by
  funext k
  by_cases hkk : k = key
  · subst hkk
    simp [countFn, List.count_cons_self, hcnt]
  · have : (key :: hist).count k = hist.count k := by
      rw [List.count_cons_of_ne hkk]
    simp [countFn, hkk, this]

theorem buildCells_tokens (cls : Option String → String) :
    ∀ (cols : List ColDesc) (hist : List String),
      (∀ c ∈ cols, (strTruthy c.key).isSome) →
      (buildCells cls cols (countFn hist)).2.map ColDesc.renderToken =
        (mapTokens hist (cols.map truthyKey)).map some := by
  intro cols
  induction cols with
  | nil => intro hist _; rfl
  | cons col rest ih =>
      intro hist hk
      obtain ⟨key, hkey⟩ : ∃ key, strTruthy col.key = some key :=
        Option.isSome_iff_exists.mp (hk col (List.mem_cons_self _ _))
      have hrest : ∀ c ∈ rest, (strTruthy c.key).isSome :=
        fun c hc => hk c (List.mem_cons_of_mem _ hc)
      have htk : truthyKey col = key := by simp [truthyKey, hkey]
      by_cases hcnt : hist.count key = 0
      · have hc0 : countFn hist key = none := by simp [countFn, hcnt]
        simp only [buildCells, hkey, hc0, List.map_cons, List.map]
        rw [countFn_fresh hcnt, ih (key :: hist) hrest, htk]
        simp [mapTokens, tokenSpec, tokForm, hcnt]
      · have hcS : countFn hist key = some (hist.count key) := by
          simp [countFn, hcnt]
        simp only [buildCells, hkey, hcS, List.map_cons, List.map]
        rw [countFn_bump rfl hcnt, ih (key :: hist) hrest, htk]
        simp [mapTokens, tokenSpec, tokForm, hcnt]

theorem count_cons_ge (l : List String) (a k : String) :
    l.count k ≤ (a :: l).count k := by
  by_cases h : k = a
  · subst h; simp [List.count_cons_self]
  · rw [List.count_cons_of_ne h]

theorem tokForm_not_mem {S : List String} (hS : DigitSuffixFree S) :
    ∀ (ks hist : List String) (k : String) (c : Nat),
      k ∈ S → (∀ x ∈ ks, x ∈ S) → c < hist.count k →
      tokForm k c ∉ mapTokens hist ks := by
  intro ks
  induction ks with
  | nil => intro hist k c _ _ _ h; simp [mapTokens] at h
  | cons k' ks' ih =>
      intro hist k c hkS hksS hc hmem
      rcases List.mem_cons.mp hmem with hhd | htl
      · by_cases hkk : k = k'
        · subst hkk
          have : c ≠ hist.count k := by omega
          exact tokForm_ne hS hkS hkS (Or.inr this) hhd
        · exact tokForm_ne hS hkS (hksS k' (List.mem_cons_self _ _))
            (Or.inl hkk) hhd
      · have hc' : c < (k' :: hist).count k :=
          Nat.lt_of_lt_of_le hc (count_cons_ge hist k' k)
        exact ih (k' :: hist) k c hkS
          (fun x hx => hksS x (List.mem_cons_of_mem _ hx)) hc' htl

theorem mapTokens_pairwise {S : List String} (hS : DigitSuffixFree S) :
    ∀ (ks hist : List String), (∀ x ∈ ks, x ∈ S) →
      (mapTokens hist ks).Pairwise (· ≠ ·) := by
  intro ks
  induction ks with
  | nil => intro hist _; simp [mapTokens]
  | cons k ks' ih =>
      intro hist hks
      have hkS : k ∈ S := hks k (List.mem_cons_self _ _)
      have hks' : ∀ x ∈ ks', x ∈ S :=
        fun x hx => hks x (List.mem_cons_of_mem _ hx)
      refine List.Pairwise.cons ?_ (ih (k :: hist) hks')
      intro t ht heq
      have hlt : hist.count k < (k :: hist).count k := by
        simp [List.count_cons_self]
      apply tokForm_not_mem hS ks' (k :: hist) k (hist.count k) hkS hks' hlt
      rw [show tokForm k (hist.count k) = tokenSpec hist k from rfl, heq]
      exact ht

theorem mapTokens_get :
    ∀ (ks hist : List String) (i : Nat) (h : i < ks.length),
      (mapTokens hist ks).get? i =
        some (tokForm (ks.get ⟨i, h⟩)
          (hist.count (ks.get ⟨i, h⟩) +
            (ks.take i).count (ks.get ⟨i, h⟩))) := by
  intro ks
  induction ks with
  | nil => intro hist i h; simp at h
  | cons k ks' ih =>
      intro hist i h
      cases i with
      | zero => simp [mapTokens, tokenSpec]
      | succ j =>
          have hj : j < ks'.length := by simpa using h
          simp only [mapTokens, List.get?_cons_succ]
          rw [ih (k :: hist) j hj]
          have hget : (k :: ks').get ⟨j + 1, h⟩ = ks'.get ⟨j, hj⟩ := rfl
          rw [hget]
          have htake : (k :: ks').take (j + 1) = k :: ks'.take j := rfl
          rw [htake]
          by_cases hkk : ks'.get ⟨j, hj⟩ = k
          · rw [hkk, List.count_cons_self, List.count_cons_self]
            congr 2
            omega
          · rw [List.count_cons_of_ne hkk, List.count_cons_of_ne hkk]

theorem mapTokens_length :
    ∀ (ks hist : List String), (mapTokens hist ks).length = ks.length := by
  intro ks
  induction ks with
  | nil => intro hist; rfl
  | cons k ks' ih => intro hist; simp [mapTokens, ih]

/-- A list of digit-free strings is trivially digit-suffix-free. -/
theorem digitFree_DSF {ks : List String}
    (h : ∀ k ∈ ks, ∀ c ∈ k.data, ¬ (48 ≤ c.toNat ∧ c.toNat ≤ 57)) :
    DigitSuffixFree ks := by
  intro a ha b hb t ht hd heq
  cases t with
  | nil => exact ht rfl
  | cons x xs =>
      have hx : x ∈ b.data := by
        rw [heq]
        exact List.mem_append_right _ (List.mem_cons_self _ _)
      exact h b hb x hx (hd x (List.mem_cons_self _ _))


/-- `&` -/
def chr38 : Char := Char.ofNat 38
/-- `<` -/
def chr60 : Char := Char.ofNat 60
/-- `>` -/
def chr62 : Char := Char.ofNat 62
/-- double quote -/
def chr34 : Char := Char.ofNat 34
/-- apostrophe -/
def chr39 : Char := Char.ofNat 39
/-- forward slash -/
def chr47 : Char := Char.ofNat 47

/-!  ### HTML escaping (`Y.Escape.html`)

Modelled from the spec: `Y.Escape` is not under `src/`; per the spec,
"for `allowHTML: false`, any HTML-significant characters in the computed
value are escaped in the output".  Each HTML-significant character is
replaced by its character entity. -/

/-- Entity replacement for one character. -/
def escChar (c : Char) : List Char :=
  if c = chr38 then "&amp;".data
  else if c = chr60 then "&lt;".data
  else if c = chr62 then "&gt;".data
  else if c = chr34 then "&quot;".data
  else if c = chr39 then "&#x27;".data
  else if c = chr47 then "&#x2F;".data
  else [c]

/-- `Y.Escape.html` — escape the HTML-significant characters of the
string coercion of a value. -/
def htmlEscape (s : String) : String :=
  String.mk (s.data.map escChar).flatten

/-!  ### Row rendering (`_createRowHTML`, `_createDataHTML`) -/

/-- Lines 535-537: an empty-string or undefined cell value falls back to
`col.emptyCellValue || ''`. -/
def emptyFallback (col : ColDesc) (v : JSVal) : JSVal :=
  if v = .undef ∨ v = .str "" then
    (if col.emptyCellValue.truthy then col.emptyCellValue else .str "")
  else v

/-- Line 539: `col.allowHTML ? value : htmlEscape(value)` (as the string
the placeholder ultimately renders). -/
def cellString (col : ColDesc) (v : JSVal) : String :=
  if col.allowHTML then v.toStr else htmlEscape v.toStr

/-- `col._renderToken || col.key || col._yuid` (body.js 505). -/
def tokenOf (col : ColDesc) : String :=
  match strTruthy col.renderToken with
  | some t => t
  | none =>
      match strTruthy col.key with
      | some k => k
      | none => col.yuid

/-- The formatter context built at body.js 510-517. -/
def mkFmtCtx (col : ColDesc) (data : List (String × JSVal))
    (model : Record) (index : Nat) : FmtCtx :=
  { value := jsGet data col.key, data := data, column := col.view,
    record := model, classnames := "", rowindex := index }

/-- The substitution view of a formatter context used by a
string-template formatter: the scalar context properties reachable as
placeholders (object-valued properties would only stringify opaquely). -/
def fmtCtxLookup (o : FmtCtx) : String → Option String := fun nm =>
  if nm = "value" then some o.value.toStr
  else if nm = "classnames" then some o.classnames
  else if nm = "rowindex" then some (toString o.rowindex)
  else none

/-- The per-column body of the `_createRowHTML` loop (body.js 502-540):
threads the `values` object and the shared attribute map through one
column.  A returned value takes precedence over the mutated
`o.value`; only a callable formatter overwrites the `-classes` entry. -/
def processCol (model : Record) (index : Nat)
    (st : List (String × String) × List (String × JSVal))
    (col : ColDesc) : List (String × String) × List (String × JSVal) :=
  let token := tokenOf col
  let values := setv st.1 (token ++ "-classes") ""
  match fmtTruthy col.formatter with
  | some (.str tmpl) =>
      let o := mkFmtCtx col st.2 model index
      let value := JSVal.str (fromTemplate tmpl (fmtCtxLookup o))
      (setv values token (cellString col (emptyFallback col value)), st.2)
  | some (.fn f) =>
      let o := mkFmtCtx col st.2 model index
      let r := f o
      let value := if r.1 = .undef then r.2.value else r.1
      let values := setv values (token ++ "-classes") r.2.classnames
      (setv values token (cellString col (emptyFallback col value)),
        r.2.data)
  | none =>
      (setv values token
        (cellString col (emptyFallback col (jsGet st.2 col.key))), st.2)

/-- The view state of the `BodyView` instance: the container (its
current markup, when attached), the record collection, the parsed
columns, the class-name strategy with the derived odd/even row classes,
the last built row template, and the `source`/event-handle flags that
`bindUI` consults. -/
structure BodyView where
  container : Option String
  modelList : Option (List Record)
  columns : List ColDesc
  cls : Option String → String
  classOdd : String
  classEven : String
  rowTemplate : String
  hasSource : Bool
  handleColumnsChange : Bool
  handleDataChange : Bool

/-- The initial per-row state of `_createRowHTML` (body.js 492-500): the
`values` object seeded with the odd/even row class, and the record's
attribute map. -/
def rowInit (b : BodyView) (model : Record) (index : Nat) :
    List (String × String) × List (String × JSVal) :=
  ([("rowClasses", if index % 2 = 0 then b.classEven else b.classOdd)],
    model.attrs)

/-- The `values` map of `_createRowHTML` (body.js 491-540): the fold of
the per-column step over the columns; also gives the attribute map as
mutated by the formatters of the row. -/
def rowValues (b : BodyView) (model : Record) (index : Nat) :
    List (String × String) × List (String × JSVal) :=
  b.columns.foldl (processCol model index) (rowInit b model index)

/-- The same fold stopped after the first `k` columns. -/
def rowValuesPrefix (b : BodyView) (model : Record) (index k : Nat) :
    List (String × String) × List (String × JSVal) :=
  (b.columns.take k).foldl (processCol model index) (rowInit b model index)

/-- `_createRowHTML` (body.js 491-543). -/
def createRowHTML (b : BodyView) (model : Record) (index : Nat) : String :=
  fromTemplate b.rowTemplate (lookupv (rowValues b model index).1)

def createDataHTMLAux (b : BodyView) : Nat → List Record → String
  | _, [] => ""
  | i, m :: rest => createRowHTML b m i ++ createDataHTMLAux b (i + 1) rest

/-- `_createDataHTML` (body.js 446-457): the concatenation of the row
markup of every record, in collection order. -/
def createDataHTML (b : BodyView) (data : List Record) : String :=
  createDataHTMLAux b 0 data

/-- `bindUI` (body.js 406-421).  With no `dataChange` subscription yet
and an absent `modelList`, `data.after(...)` reads a property of
`undefined`: a TypeError. -/
def bindUI (b : BodyView) : Except String BodyView :=
  let b1 := if b.hasSource && !b.handleColumnsChange then
      { b with handleColumnsChange := true } else b
  if !b1.handleDataChange then
    match b1.modelList with
    | none => .error "TypeError: cannot read property after of undefined"
    | some _ => .ok { b1 with handleDataChange := true }
  else .ok b1

/-- `render` (body.js 282-299): rebuild the row template (annotating the
columns), write the assembled markup into the container when both the
container and the record collection exist, then `bindUI` and return the
instance.  (The node-formatter pass acts on realized DOM nodes; it is
modelled separately over structured cells in `applyNodeFormatters`.) -/
def render (b : BodyView) : Except String BodyView :=
  let r := createRowTemplate b.cls b.columns
  let b1 := { b with rowTemplate := r.1, columns := r.2 }
  let b2 :=
    if b1.container.isSome && b1.modelList.isSome then
      { b1 with
          container := some (createDataHTML b1 (b1.modelList.getD [])) }
    else b1
  bindUI b2

/-!  ### Node formatter pass (`_applyNodeFormatters`) -/

/-- A realized cell node: its injected markup, and whether its Node
object is still held in the Node cache (a destroyed Node leaves the DOM
element and its content in place but is purged from the cache). -/
structure CellNode where
  content : String
  inCache : Bool
  deriving DecidableEq

/-- `col.key || col._yuid` (body.js 377). -/
def nfKey (col : ColDesc) : String :=
  match strTruthy col.key with
  | some k => k
  | none => col.yuid

/-- The node-formatter context of body.js 362-382 for one cell. -/
def mkNFCtx (col : ColDesc) (record : Record) (index : Nat)
    (cell : CellNode) : NFCtx :=
  { value := jsGet record.attrs (some (nfKey col)), data := record.attrs,
    record := record, column := col.view, rowindex := index,
    content := cell.content }

/-- One cell of the `_applyNodeFormatters` inner loop (body.js 373-392):
build the context, invoke the formatter, and `destroy()` the cell Node
exactly when the return value is strictly `false`. -/
def applyNFCell (col : ColDesc) (record : Record) (index : Nat)
    (cell : CellNode) : CellNode :=
  match col.nodeFormatter with
  | none => cell
  | some nf =>
      let r := nf (mkNFCtx col record index cell)
      if r.1 = .bool false then { content := r.2, inCache := false }
      else { content := r.2, inCache := cell.inCache }

/-- Indexed traversal, as `modelList.each` supplies the index. -/
def eachIdx {α : Type} (f : Nat → α → α) : Nat → List α → List α
  | _, [] => []
  | i, x :: rest => f i x :: eachIdx f (i + 1) rest

/-- `_applyNodeFormatters` (body.js 345-398): for every record with a
realized row, apply each `nodeFormatter` column to its cell of that row;
rows beyond the record collection and cells beyond the column list are
untouched, as are cells of columns without a `nodeFormatter`. -/
def applyNodeFormatters (cols : List ColDesc) (data : List Record)
    (tbody : List (List CellNode)) : List (List CellNode) :=
  eachIdx (fun i row =>
    match data.get? i with
    | none => row
    | some record =>
        eachIdx (fun j cell =>
          match cols.get? j with
          | none => cell
          | some col => applyNFCell col record i cell) 0 row) 0 tbody

theorem eachIdx_get? {α : Type} (f : Nat → α → α) :
    ∀ (l : List α) (n i : Nat),
      (eachIdx f n l).get? i = (l.get? i).map (f (n + i)) := by
  intro l
  induction l with
  | nil => intro n i; simp [eachIdx]
  | cons x rest ih =>
      intro n i
      cases i with
      | zero => simp [eachIdx]
      | succ j =>
          simp only [eachIdx, List.get?_cons_succ, ih (n + 1) j]
          have : n + 1 + j = n + (j + 1) := by omega
          rw [this]

/-!  ### The literal shape of the built templates -/

theorem subst_nolb (vals : String → Option String) {a : List Char}
    (h : '{' ∉ a) : subst vals a = a := by
  have h0 : subst vals ([] : List Char) = [] := rfl
  have := subst_append_nolb vals h []
  rw [h0] at this
  simpa using this

theorem subst_cell_template (vals : String → Option String)
    (vh vc vx : String) (hh : vals "headers" = some vh)
    (hc : vals "classes" = some vc) (hx : vals "content" = some vx) :
    subst vals CELL_TEMPLATE.data =
      "<td headers=\"".data ++ vh.data ++ "\" class=\"".data ++ vc.data ++
        "\">".data ++ vx.data ++ "</td>".data := by
  have hdec : CELL_TEMPLATE.data =
      "<td headers=\"".data ++ '{' :: ("headers".data ++ '}' ::
        ("\" class=\"".data ++ '{' :: ("classes".data ++ '}' ::
          ("\">".data ++ '{' :: ("content".data ++ '}' ::
            "</td>".data))))) := by decide
  have e1 : String.mk ("headers".data) = "headers" := rfl
  have e2 : String.mk ("classes".data) = "classes" := rfl
  have e3 : String.mk ("content".data) = "content" := rfl
  rw [hdec, subst_append_nolb vals (by decide),
    subst_placeholder vals (by decide), e1, hh,
    subst_append_nolb vals (by decide),
    subst_placeholder vals (by decide), e2, hc,
    subst_append_nolb vals (by decide),
    subst_placeholder vals (by decide), e3, hx,
    subst_nolb vals (by decide)]
  simp

theorem subst_row_template (vals : String → Option String) (vx : String)
    (hx : vals "content" = some vx) (h1 : vals "clientId" = none)
    (h2 : vals "rowClasses" = none) :
    subst vals ROW_TEMPLATE.data =
      "<tr id=\"".data ++ ('{' :: ("clientId".data ++ ['}'])) ++
        "\" class=\"".data ++ ('{' :: ("rowClasses".data ++ ['}'])) ++
        "\">".data ++ vx.data ++ "</tr>".data := by
  have hdec : ROW_TEMPLATE.data =
      "<tr id=\"".data ++ '{' :: ("clientId".data ++ '}' ::
        ("\" class=\"".data ++ '{' :: ("rowClasses".data ++ '}' ::
          ("\">".data ++ '{' :: ("content".data ++ '}' ::
            "</tr>".data))))) := by decide
  have e1 : String.mk ("clientId".data) = "clientId" := rfl
  have e2 : String.mk ("rowClasses".data) = "rowClasses" := rfl
  have e3 : String.mk ("content".data) = "content" := rfl
  rw [hdec, subst_append_nolb vals (by decide),
    subst_placeholder vals (by decide), e1, h1,
    subst_append_nolb vals (by decide),
    subst_placeholder vals (by decide), e2, h2,
    subst_append_nolb vals (by decide),
    subst_placeholder vals (by decide), e3, hx,
    subst_nolb vals (by decide)]
  simp

theorem cell_fragment_data (cls : Option String → String) (col : ColDesc)
    (token : String) :
    (fromTemplate CELL_TEMPLATE (cellVals cls col token)).data =
      "<td headers=\"".data ++ (String.intercalate " " col.headers).data ++
        "\" class=\"".data ++
        (if col.nodeFormatter.isSome then ("" : String)
         else cls col.key ++ " \x7b" ++ token ++ "-classes\x7d").data ++
        "\">".data ++
        (if col.nodeFormatter.isSome then ("" : String)
         else "\x7b" ++ token ++ "\x7d").data ++ "</td>".data := by
  show subst (cellVals cls col token) CELL_TEMPLATE.data = _
  exact subst_cell_template (cellVals cls col token) _ _ _ rfl rfl rfl

theorem dataSpLb : " \x7b".data = [' ', '{'] := by decide
theorem dataLb : "\x7b".data = ['{'] := by decide
theorem dataClassesClose : "-classes\x7d".data = "-classes".data ++ ['}'] := by
  decide

theorem scanPH_cell_nf (cls : Option String → String) (col : ColDesc)
    (token : String) (t : List Char)
    (hh : '{' ∉ (String.intercalate " " col.headers).data)
    (hnf : col.nodeFormatter.isSome = true) :
    scanPH ((fromTemplate CELL_TEMPLATE (cellVals cls col token)).data ++ t) =
      scanPH t := by
  rw [cell_fragment_data]
  simp only [hnf, if_true]
  simp only [List.append_nil, List.nil_append, List.append_assoc]
  rw [scan_append_nolb (by decide), scan_append_nolb hh,
    scan_append_nolb (by decide), scan_append_nolb (by decide),
    scan_append_nolb (by decide)]

theorem scanPH_cell_plain (cls : Option String → String) (col : ColDesc)
    (token : String) (t : List Char)
    (hh : '{' ∉ (String.intercalate " " col.headers).data)
    (hc : '{' ∉ (cls col.key).data)
    (ht2 : '}' ∉ token.data)
    (hnf : col.nodeFormatter.isSome = false) :
    scanPH ((fromTemplate CELL_TEMPLATE (cellVals cls col token)).data ++ t) =
      (token ++ "-classes") :: token :: scanPH t := by
  have hshape :
      (fromTemplate CELL_TEMPLATE (cellVals cls col token)).data ++ t =
        "<td headers=\"".data ++ ((String.intercalate " " col.headers).data ++ ("\" class=\"".data ++ ((cls col.key).data ++ (' ' :: '{' :: ((token.data ++ "-classes".data) ++ ('}' :: ("\">".data ++ ('{' :: (token.data ++ ('}' :: ("</td>".data ++ t))))))))))) := by
    rw [cell_fragment_data]
    simp only [hnf, Bool.false_eq_true, if_false]
    simp [String.data_append, dataSpLb, dataLb, dataClassesClose,
      List.append_assoc]
  rw [hshape, scan_append_nolb (by decide), scan_append_nolb hh,
    scan_append_nolb (by decide), scan_append_nolb hc,
    scan_cons_ne (by decide)]
  have hnm : '}' ∉ token.data ++ "-classes".data := by
    intro hmem
    rcases List.mem_append.mp hmem with h | h
    · exact ht2 h
    · revert h; decide
  rw [scan_placeholder hnm]
  rw [scan_append_nolb (by decide), scan_placeholder ht2,
    scan_append_nolb (by decide)]
  have h1 : String.mk (token.data ++ "-classes".data) = token ++ "-classes" := by
    apply strData_inj
    simp [String.data_append]
  rw [h1]

/-- The placeholder contribution of one column to the row template. -/
def colPlaceholders (c : ColDesc) : List String :=
  if c.nodeFormatter.isSome then []
  else [(c.renderToken.getD "") ++ "-classes", c.renderToken.getD ""]

theorem buildCells_cons (cls : Option String → String) (col : ColDesc)
    (rest : List ColDesc) (tokens : String → Option Nat) :
    ∃ (token : String) (tokens' : String → Option Nat),
      buildCells cls (col :: rest) tokens =
        (fromTemplate CELL_TEMPLATE (cellVals cls col token) ++
          (buildCells cls rest tokens').1,
         { col with renderToken := some token } ::
          (buildCells cls rest tokens').2) :=
  ⟨_, _, rfl⟩

theorem scanPH_buildCells (cls : Option String → String)
    (hcls : ∀ k, '{' ∉ (cls k).data) :
    ∀ (cols : List ColDesc) (tk : String → Option Nat) (t : List Char),
      (∀ col ∈ cols, '{' ∉ (String.intercalate " " col.headers).data) →
      (∀ col ∈ (buildCells cls cols tk).2,
        '}' ∉ (col.renderToken.getD "").data) →
      scanPH ((buildCells cls cols tk).1.data ++ t) =
        ((buildCells cls cols tk).2.flatMap colPlaceholders) ++ scanPH t := by
  intro cols
  induction cols with
  | nil => intro tk t _ _; simp [buildCells]
  | cons col rest ih =>
      intro tk t hhdr htok
      obtain ⟨token, tk', heq⟩ := buildCells_cons cls col rest tk
      rw [heq] at htok ⊢
      rw [String.data_append, List.append_assoc]
      have hh := hhdr col (List.mem_cons_self _ _)
      have htokhead : '}' ∉ token.data := by
        have := htok _ (List.mem_cons_self _ _)
        simpa using this
      have hhdr' : ∀ c ∈ rest, '{' ∉ (String.intercalate " " c.headers).data :=
        fun c hc => hhdr c (List.mem_cons_of_mem _ hc)
      have htok' : ∀ c ∈ (buildCells cls rest tk').2,
          '}' ∉ (c.renderToken.getD "").data :=
        fun c hc => htok c (List.mem_cons_of_mem _ hc)
      by_cases hnf : col.nodeFormatter.isSome
      · rw [scanPH_cell_nf cls col token _ hh hnf, ih tk' t hhdr' htok']
        simp [colPlaceholders, hnf]
      · have hbf : col.nodeFormatter.isSome = false := by
          simpa using hnf
        rw [scanPH_cell_plain cls col token _ hh (hcls col.key) htokhead hbf,
          ih tk' t hhdr' htok']
        simp [colPlaceholders, hbf]

theorem scan_placeholder_group {nm : List Char} (h : '}' ∉ nm)
    (r : List Char) :
    scanPH (('{' :: (nm ++ ['}'])) ++ r) = String.mk nm :: scanPH r := by
  have hsh : ('{' :: (nm ++ ['}'])) ++ r = '{' :: (nm ++ '}' :: r) := by simp
  rw [hsh, scan_placeholder h]

theorem scanPH_rowTemplate (cls : Option String → String)
    (hcls : ∀ k, '{' ∉ (cls k).data) (cols : List ColDesc)
    (hhdr : ∀ col ∈ cols, '{' ∉ (String.intercalate " " col.headers).data)
    (htok : ∀ col ∈ (createRowTemplate cls cols).2,
      '}' ∉ (col.renderToken.getD "").data) :
    scanPH (createRowTemplate cls cols).1.data =
      "clientId" :: "rowClasses" ::
        ((createRowTemplate cls cols).2.flatMap colPlaceholders) := by
  have hdata : (createRowTemplate cls cols).1.data =
      subst (fun nm => if nm = "content" then
          some (buildCells cls cols (fun _ => none)).1 else none)
        ROW_TEMPLATE.data := rfl
  rw [hdata,
    subst_row_template
      (fun nm => if nm = "content" then
        some (buildCells cls cols (fun _ => none)).1 else none)
      (buildCells cls cols (fun _ => none)).1 rfl rfl rfl]
  simp only [List.append_assoc]
  rw [scan_append_nolb (by decide), scan_placeholder_group (by decide),
    scan_append_nolb (by decide), scan_placeholder_group (by decide),
    scan_append_nolb (by decide),
    scanPH_buildCells cls hcls cols (fun _ => none) "</tr>".data hhdr htok]
  have hend : scanPH "</tr>".data = [] := by decide
  rw [hend]
  simp
  rfl

/-!  ### Concrete fixtures -/

/-- A plain keyed column. -/
def mkCol (k : String) : ColDesc :=
  { key := some k, name := none, formatter := none, nodeFormatter := none,
    emptyCellValue := .undef, allowHTML := false, headers := [],
    yuid := "yuid0", index := 0, renderToken := none }

/-- A constant class-name strategy (brace-free output). -/
def cls0 : Option String → String := fun _ => "yui3-table-col"

/-!  ### Claims -/

/-- C5: for every (possibly nested) column configuration list, the
flattener returns exactly the entries with a (truthy) key, formatter, or
nodeFormatter — string shorthands converted to `{key: s}` descriptors —
in depth-first order, each with `index` equal to its position in the
output; children-only entries are replaced by their flattened children,
entries with none of these are dropped silently, and non-array or empty
input returns the accumulator unchanged. -/
theorem parseColumns_flattens :
    (∀ d : List ColConfig, parseColumns d [] = withIdx 0 (leaves d)) ∧
    (∀ (d : List ColConfig) (i : Nat),
      ((parseColumns d []).get? i).map ColDesc.index =
        if i < (leaves d).length then some i else none) ∧
    (∀ acc : List ColDesc,
      parseColumnsArg none acc = acc ∧ parseColumns [] acc = acc) := by
  have hmain : ∀ d : List ColConfig, parseColumns d [] = withIdx 0 (leaves d) := by
    intro d
    have h := parseColumns_eq d []
    simpa using h
  refine ⟨hmain, ?_, ?_⟩
  · intro d i
    rw [hmain d, withIdx_index]
    simp
  · intro acc
    exact ⟨rfl, by simp [parseColumns]⟩

theorem countFn_nil : (fun _ => none : String → Option Nat) = countFn [] := by
  funext k
  simp [countFn]

/-- C1 (amended): over any all-keyed column list in which no key equals
another key extended by a nonempty run of decimal digits, the render
tokens assigned by the template builder are pairwise distinct; the `i`-th
column gets the bare key when it is the first occurrence of its key and
the key suffixed with the decimal occurrence count (`key1`, `key2`, …)
otherwise.  (Without the digit-suffix-freedom hypothesis the tokens can
collide: see the counterexample with keys `x`, `x`, `x1`.) -/
theorem createRowTemplate_tokens_unique (cls : Option String → String)
    (cols : List ColDesc)
    (hkey : ∀ c ∈ cols, (strTruthy c.key).isSome)
    (hfree : DigitSuffixFree (cols.map truthyKey)) :
    ((createRowTemplate cls cols).2.map ColDesc.renderToken).Pairwise (· ≠ ·) ∧
    ∀ (i : Nat) (h : i < cols.length),
      ((createRowTemplate cls cols).2.map ColDesc.renderToken).get? i =
        some (some (tokForm (truthyKey (cols.get ⟨i, h⟩))
          (((cols.map truthyKey).take i).count
            (truthyKey (cols.get ⟨i, h⟩))))) := by
  have hmap : (createRowTemplate cls cols).2.map ColDesc.renderToken =
      (mapTokens [] (cols.map truthyKey)).map some := by
    show (buildCells cls cols (fun _ => none)).2.map ColDesc.renderToken = _
    rw [countFn_nil]
    exact buildCells_tokens cls cols [] hkey
  constructor
  · rw [hmap]
    have hp := mapTokens_pairwise hfree (cols.map truthyKey) []
      (fun x hx => hx)
    rw [List.pairwise_map]
    exact hp.imp (fun h => by simpa using h)
  · intro i h
    have hlen : i < (cols.map truthyKey).length := by simpa using h
    rw [hmap, List.get?_map, mapTokens_get (cols.map truthyKey) [] i hlen]
    have hget : (cols.map truthyKey).get ⟨i, hlen⟩ =
        truthyKey (cols.get ⟨i, h⟩) := by
      simp [List.get_map]
    rw [hget]
    simp

/-- C1 witness: keys `x`, `x`, `y` satisfy the hypotheses and get
pairwise distinct tokens. -/
theorem createRowTemplate_tokens_unique_witness :
    (∀ c ∈ [mkCol "x", mkCol "x", mkCol "y"], (strTruthy c.key).isSome) ∧
    DigitSuffixFree ([mkCol "x", mkCol "x", mkCol "y"].map truthyKey) ∧
    ((createRowTemplate cls0 [mkCol "x", mkCol "x", mkCol "y"]).2.map
      ColDesc.renderToken).Pairwise (· ≠ ·) := by
  have hkey : ∀ c ∈ [mkCol "x", mkCol "x", mkCol "y"],
      (strTruthy c.key).isSome := by decide
  have hfree : DigitSuffixFree ([mkCol "x", mkCol "x", mkCol "y"].map
      truthyKey) := digitFree_DSF (by decide)
  exact ⟨hkey, hfree,
    (createRowTemplate_tokens_unique cls0 _ hkey hfree).1⟩

/-- C1 counterexample: with keys `x`, `x`, `x1` — where the literal key
`x1` textually equals an earlier key plus a numeric suffix — the builder
assigns the tokens `x`, `x1`, `x1`, which are not pairwise unique. -/
theorem createRowTemplate_tokens_collision :
    ((createRowTemplate cls0 [mkCol "x", mkCol "x", mkCol "x1"]).2.map
      ColDesc.renderToken) = [some "x", some "x1", some "x1"] ∧
    ¬ ((createRowTemplate cls0 [mkCol "x", mkCol "x", mkCol "x1"]).2.map
      ColDesc.renderToken).Pairwise (· ≠ ·) := by
  have h : ((createRowTemplate cls0 [mkCol "x", mkCol "x", mkCol "x1"]).2.map
      ColDesc.renderToken) = [some "x", some "x1", some "x1"] := by decide
  refine ⟨h, ?_⟩
  rw [h]
  decide

/-- A node formatter fixture: signals release and keeps the content. -/
def nf0 : NodeFmt := fun o => (JSVal.bool false, o.content)

/-- A column with a `nodeFormatter`. -/
def nfCol : ColDesc := { mkCol "a" with nodeFormatter := some nf0 }

/-- C4 (amended): the placeholder list of the built row template is
exactly `clientId` and `rowClasses` plus, for each column that does not
declare a `nodeFormatter`, its `{token}-classes` and `{token}`
placeholders; a column with a `nodeFormatter` contributes no placeholders
(its content and classes are emitted empty).  This holds whenever the
class-name strategy, the headers, and the assigned tokens are
brace-free. -/
theorem rowTemplate_placeholders (cls : Option String → String)
    (cols : List ColDesc) (hcls : ∀ k, '{' ∉ (cls k).data)
    (hhdr : ∀ col ∈ cols, '{' ∉ (String.intercalate " " col.headers).data)
    (htok : ∀ col ∈ (createRowTemplate cls cols).2,
      '}' ∉ (col.renderToken.getD "").data) :
    scanPH (createRowTemplate cls cols).1.data =
      "clientId" :: "rowClasses" ::
        ((createRowTemplate cls cols).2.flatMap colPlaceholders) :=
  scanPH_rowTemplate cls hcls cols hhdr htok

/-- C4 witness: a keyed column plus a `nodeFormatter` column. -/
theorem rowTemplate_placeholders_witness :
    scanPH (createRowTemplate cls0 [mkCol "x", nfCol]).1.data =
      "clientId" :: "rowClasses" ::
        ((createRowTemplate cls0 [mkCol "x", nfCol]).2.flatMap
          colPlaceholders) :=
  rowTemplate_placeholders cls0 [mkCol "x", nfCol]
    (fun _ => by
      show '{' ∉ ("yui3-table-col" : String).data
      decide)
    (by decide) (by decide)

/-- C4 counterexample: a single column with key `a` and a
`nodeFormatter` is assigned render token `a`, yet the built row template
contains only the `clientId` and `rowClasses` placeholders — the
column's `{a}` and `{a}-classes` placeholders are missing (and
`clientId` is not among the render tokens), contradicting the claimed
placeholder set. -/
theorem rowTemplate_nodeFormatter_placeholder_missing :
    ((createRowTemplate cls0 [nfCol]).2.map ColDesc.renderToken =
      [some "a"]) ∧
    scanPH (createRowTemplate cls0 [nfCol]).1.data =
      ["clientId", "rowClasses"] ∧
    "a" ∉ scanPH (createRowTemplate cls0 [nfCol]).1.data :=
  ⟨by decide, by decide, by decide⟩

/-- A minimal view fixture. -/
def bv0 : BodyView :=
  { container := some "", modelList := none, columns := [], cls := cls0,
    classOdd := "yui3-table-odd", classEven := "yui3-table-even",
    rowTemplate := "", hasSource := false, handleColumnsChange := false,
    handleDataChange := false }

/-- C3 counterexample: with the container present but the record
collection absent and no dataChange subscription yet, `render` does not
complete: `bindUI` reads `after` of the absent `modelList` and throws. -/
theorem render_missing_modelList_errors :
    render bv0 =
      Except.error "TypeError: cannot read property after of undefined" :=
  rfl

theorem bindUI_ok (bb : BodyView)
    (hok : bb.modelList ≠ none ∨ bb.handleDataChange = true) :
    ∃ b' : BodyView, bindUI bb = Except.ok b' ∧
      b'.container = bb.container := by
  rcases hok with hsome | htrue
  · obtain ⟨l, hl⟩ := Option.ne_none_iff_exists'.mp hsome
    cases hdcv : bb.handleDataChange <;>
      by_cases hsrc : (bb.hasSource && !bb.handleColumnsChange) = true <;>
        simp only [bindUI, hl, hdcv, hsrc, Bool.not_false, Bool.not_true,
          if_true, if_false, Bool.false_eq_true] <;>
        exact ⟨_, rfl, rfl⟩
  · by_cases hsrc : (bb.hasSource && !bb.handleColumnsChange) = true <;>
      simp only [bindUI, htrue, hsrc, Bool.not_true, if_true, if_false,
        Bool.false_eq_true] <;>
      exact ⟨_, rfl, rfl⟩

/-- C3 (amended): when the container is absent — or the record
collection is absent but a dataChange subscription already exists —
`render` completes without writing any container content and returns the
instance; with the record collection absent and no dataChange
subscription, `render` instead throws from `bindUI` (see the
counterexample). -/
theorem render_missing_noop (b : BodyView)
    (hmiss : b.container = none ∨ b.modelList = none)
    (hok : b.modelList ≠ none ∨ b.handleDataChange = true) :
    ∃ b' : BodyView, render b = Except.ok b' ∧
      b'.container = b.container := by
  unfold render
  dsimp only
  have hc1 : (b.container.isSome && b.modelList.isSome) = false := by
    rcases hmiss with hc | hm
    · rw [hc]; simp
    · rw [hm]; simp
  rw [hc1]
  simp only [Bool.false_eq_true, if_false]
  exact bindUI_ok _ hok

/-- The C3 witness fixture: absent container, present record list. -/
def bvW : BodyView := { bv0 with container := none, modelList := some [] }

/-- C3 witness: absent container with a present record collection. -/
theorem render_missing_noop_witness :
    (bvW.container = none ∨ bvW.modelList = none) ∧
    ∃ b', render bvW = Except.ok b' ∧ b'.container = bvW.container :=
  ⟨Or.inl rfl,
    render_missing_noop bvW (Or.inl rfl) (Or.inl (by simp [bvW, bv0]))⟩

/-- A formatter that writes the row-classes override into the shared
attribute map, as the in-code documentation of `_createRowHTML`
(body.js 478-480) says formatters may do. -/
def rcFmt : Fmt := .fn fun o =>
  (JSVal.undef,
    { o with data := jsSet o.data "rowClasses" (JSVal.str "custom") })

/-- A column carrying `rcFmt`. -/
def rcCol : ColDesc := { mkCol "name" with formatter := some rcFmt }

/-- A one-attribute record. -/
def annRec : Record := { clientId := "c1", attrs := [("name", JSVal.str "Ann")] }

/-- The view over `rcCol` and `annRec`, before the template build. -/
def bvRCBase : BodyView :=
  { bv0 with
      container := some ""
      modelList := some [annRec]
      columns := [rcCol] }

/-- The same view after `_createRowTemplate` ran. -/
def bvRC : BodyView :=
  { bvRCBase with
      rowTemplate := (createRowTemplate bvRCBase.cls bvRCBase.columns).1
      columns := (createRowTemplate bvRCBase.cls bvRCBase.columns).2 }

/-- C2 (code bug): at row index 0 the formatter writes
`data.rowClasses = "custom"` into the shared attribute map — the write
is visible in the map after the row is processed — yet the rendered
row-classes placeholder still resolves to the even-row class, because
`_createRowHTML` substitutes the separate `values` object and never
reads `data.rowClasses`, contradicting its own documentation
(body.js 478-480) that the odd/even default "can be accessed and
ammended by any column formatter via `o.data.rowClasses`". -/
theorem rowClasses_data_mutation_ignored :
    (rowValues bvRC annRec 0).2.lookup "rowClasses" =
      some (JSVal.str "custom") ∧
    lookupv (rowValues bvRC annRec 0).1 "rowClasses" =
      some "yui3-table-even" ∧
    createRowHTML bvRC annRec 0 =
      "<tr id=\"{clientId}\" class=\"yui3-table-even\"><td headers=\"\" class=\"yui3-table-col \">Ann</td></tr>" ∧
    lookupv (rowValues bvRC annRec 0).1 "rowClasses" ≠ some "custom" :=
  ⟨by decide, by decide, by decide, by decide⟩

theorem ne_token_classes (t : String) : t ++ "-classes" ≠ t := by
  intro h
  have hlen := congrArg (fun s => s.data.length) h
  simp [String.data_append] at hlen

/-- C6: for a callable formatter, a return value other than `undefined`
becomes the cell value, taking precedence over the (possibly mutated)
`o.value`; a return of `undefined` falls back to the mutated `o.value`;
and the final `o.classnames` is what the column's `-classes` placeholder
receives.  For a (truthy) string-template formatter, the cell value is
the template substituted with the context, and the `-classes`
placeholder receives the context's (initial, unmutated) `classnames`. -/
theorem formatter_precedence (col : ColDesc) (model : Record) (index : Nat)
    (st : List (String × String) × List (String × JSVal)) :
    (∀ f : FmtCtx → JSVal × FmtCtx, col.formatter = some (.fn f) →
      lookupv (processCol model index st col).1 (tokenOf col) =
        some (cellString col (emptyFallback col
          (if (f (mkFmtCtx col st.2 model index)).1 = .undef then
            (f (mkFmtCtx col st.2 model index)).2.value
          else (f (mkFmtCtx col st.2 model index)).1))) ∧
      lookupv (processCol model index st col).1 (tokenOf col ++ "-classes") =
        some (f (mkFmtCtx col st.2 model index)).2.classnames) ∧
    (∀ tmpl : String, col.formatter = some (.str tmpl) → tmpl ≠ "" →
      lookupv (processCol model index st col).1 (tokenOf col) =
        some (cellString col (emptyFallback col
          (JSVal.str (fromTemplate tmpl
            (fmtCtxLookup (mkFmtCtx col st.2 model index)))))) ∧
      lookupv (processCol model index st col).1 (tokenOf col ++ "-classes") =
        some (mkFmtCtx col st.2 model index).classnames) := by
  have hne : ¬ (tokenOf col = tokenOf col ++ "-classes") := fun h =>
    ne_token_classes (tokenOf col) h.symm
  constructor
  · intro f hf
    have hft : fmtTruthy col.formatter = some (.fn f) := by
      rw [hf]
      rfl
    constructor
    · simp only [processCol, hft]
      rw [lookupv_setv]
      simp
    · simp only [processCol, hft]
      rw [lookupv_setv, if_neg hne, lookupv_setv]
      simp
  · intro tmpl hstr htne
    have hft : fmtTruthy col.formatter = some (.str tmpl) := by
      rw [hstr]
      simp [fmtTruthy, htne]
    constructor
    · simp only [processCol, hft]
      rw [lookupv_setv]
      simp
    · simp only [processCol, hft]
      rw [lookupv_setv, if_neg hne, lookupv_setv]
      simp [mkFmtCtx]

/-- A formatter mutating `o.classnames` to `"highlight"` and returning
nothing (the spec scenario). -/
def hlFn : FmtCtx → JSVal × FmtCtx := fun o =>
  (JSVal.undef, { o with classnames := "highlight" })

/-- A column carrying `hlFn`. -/
def hlCol : ColDesc := { mkCol "name" with formatter := some (.fn hlFn) }

/-- C6 witness: the highlight scenario — the per-column class
placeholder resolves to `"highlight"`. -/
theorem formatter_precedence_witness :
    hlCol.formatter = some (.fn hlFn) ∧
    lookupv (processCol annRec 0 ([], annRec.attrs) hlCol).1
      ("name" ++ "-classes") = some "highlight" :=
  ⟨rfl, by
    exact ((formatter_precedence hlCol annRec 0 ([], annRec.attrs)).1
      hlFn rfl).2⟩

/-- C7 (amended): for a column with no (truthy) formatter and an
empty-string or undefined record value, the rendered cell content is
`column.emptyCellValue` when that value is truthy, and the empty string
otherwise — falsy-but-defined values such as `0` or `false` also give
the empty string, because line 536 computes `col.emptyCellValue || ''`
(JS `||` keeps only a truthy left operand).  The content then passes
through the `allowHTML` escaping step as usual. -/
theorem emptyCellValue_fallback (col : ColDesc) (model : Record)
    (index : Nat) (st : List (String × String) × List (String × JSVal))
    (hfmt : fmtTruthy col.formatter = none)
    (hempty : jsGet st.2 col.key = .undef ∨ jsGet st.2 col.key = .str "") :
    lookupv (processCol model index st col).1 (tokenOf col) =
      some (cellString col
        (if col.emptyCellValue.truthy then col.emptyCellValue
         else .str "")) := by
  simp only [processCol, hfmt]
  rw [lookupv_setv,
    show emptyFallback col (jsGet st.2 col.key) =
      (if col.emptyCellValue.truthy then col.emptyCellValue else .str "")
      from by unfold emptyFallback; rw [if_pos hempty]]
  simp

/-- A column with a truthy `emptyCellValue`. -/
def naCol : ColDesc := { mkCol "age" with emptyCellValue := JSVal.str "EMPTY" }

/-- A record with an undefined `age` attribute. -/
def boRec : Record :=
  { clientId := "c2", attrs := [("name", JSVal.str "Bo")] }

/-- C7 witness: the undefined attribute renders the truthy
`emptyCellValue`. -/
theorem emptyCellValue_fallback_witness :
    fmtTruthy naCol.formatter = none ∧
    jsGet boRec.attrs naCol.key = .undef ∧
    lookupv (processCol boRec 1 ([], boRec.attrs) naCol).1 "age" =
      some "EMPTY" :=
  ⟨rfl, by decide, by
    exact emptyCellValue_fallback naCol boRec 1 ([], boRec.attrs) rfl
      (Or.inl (by decide))⟩

/-- A column whose `emptyCellValue` is the (falsy, defined) number 0. -/
def zeroCol : ColDesc := { mkCol "age" with emptyCellValue := JSVal.num 0 }

/-- C7 counterexample: with `emptyCellValue: 0` and an undefined record
value, the cell renders the empty string, not `"0"` — a falsy but
defined `emptyCellValue` is discarded by `col.emptyCellValue || ''`. -/
theorem emptyCellValue_falsy_dropped :
    lookupv (processCol boRec 1 ([], boRec.attrs) zeroCol).1 "age" =
      some "" ∧
    (JSVal.num 0).toStr = "0" ∧
    lookupv (processCol boRec 1 ([], boRec.attrs) zeroCol).1 "age" ≠
      some "0" :=
  ⟨by decide, by decide, by decide⟩

/-- No raw HTML-significant character (besides the entity ampersands). -/
def rawFree (c : Char) : Prop :=
  c ≠ chr60 ∧ c ≠ chr62 ∧ c ≠ chr34 ∧ c ≠ chr39 ∧ c ≠ chr47

instance (c : Char) : Decidable (rawFree c) := by
  unfold rawFree
  infer_instance

theorem htmlEscape_no_raw (s : String) :
    ∀ c ∈ (htmlEscape s).data, rawFree c := by
  intro c hc
  have hc' : c ∈ (s.data.map escChar).flatten := hc
  obtain ⟨l, hl, hcl⟩ := List.mem_flatten.mp hc'
  obtain ⟨d, _, rfl⟩ := List.mem_map.mp hl
  unfold escChar at hcl
  by_cases h1 : d = chr38
  · rw [if_pos h1] at hcl
    exact (by decide : ∀ x ∈ ("&amp;" : String).data, rawFree x) c hcl
  · rw [if_neg h1] at hcl
    by_cases h2 : d = chr60
    · rw [if_pos h2] at hcl
      exact (by decide : ∀ x ∈ ("&lt;" : String).data, rawFree x) c hcl
    · rw [if_neg h2] at hcl
      by_cases h3 : d = chr62
      · rw [if_pos h3] at hcl
        exact (by decide : ∀ x ∈ ("&gt;" : String).data, rawFree x) c hcl
      · rw [if_neg h3] at hcl
        by_cases h4 : d = chr34
        · rw [if_pos h4] at hcl
          exact (by decide : ∀ x ∈ ("&quot;" : String).data, rawFree x) c hcl
        · rw [if_neg h4] at hcl
          by_cases h5 : d = chr39
          · rw [if_pos h5] at hcl
            exact (by decide : ∀ x ∈ ("&#x27;" : String).data, rawFree x)
              c hcl
          · rw [if_neg h5] at hcl
            by_cases h6 : d = chr47
            · rw [if_pos h6] at hcl
              exact (by decide : ∀ x ∈ ("&#x2F;" : String).data, rawFree x)
                c hcl
            · rw [if_neg h6] at hcl
              simp at hcl
              subst hcl
              exact ⟨h2, h3, h4, h5, h6⟩

/-- C9: with `allowHTML` false (or unset) the computed value is
HTML-escaped into the rendered cell — every HTML-significant character
becomes an entity, so the output contains no raw `<`, `>`, double quote,
apostrophe, or slash — and with `allowHTML: true` the computed value is
inserted verbatim.  (Stated for a column without a formatter; the
computed value is the record value after the empty-cell fallback.) -/
theorem allowHTML_escaping (col : ColDesc) (model : Record) (index : Nat)
    (st : List (String × String) × List (String × JSVal))
    (hfmt : fmtTruthy col.formatter = none) :
    (col.allowHTML = true →
      lookupv (processCol model index st col).1 (tokenOf col) =
        some (emptyFallback col (jsGet st.2 col.key)).toStr) ∧
    (col.allowHTML = false →
      lookupv (processCol model index st col).1 (tokenOf col) =
        some (htmlEscape (emptyFallback col (jsGet st.2 col.key)).toStr) ∧
      ∀ c ∈ (htmlEscape
          (emptyFallback col (jsGet st.2 col.key)).toStr).data,
        rawFree c) := by
  constructor
  · intro hA
    simp only [processCol, hfmt]
    rw [lookupv_setv]
    simp [cellString, hA]
  · intro hA
    refine ⟨?_, htmlEscape_no_raw _⟩
    simp only [processCol, hfmt]
    rw [lookupv_setv]
    simp [cellString, hA]

/-- A record whose `name` value carries HTML-significant characters. -/
def escRec : Record :=
  { clientId := "c3", attrs := [("name", JSVal.str "<b>")] }

/-- C9 witness: `<b>` renders escaped with `allowHTML` unset. -/
theorem allowHTML_escaping_witness :
    fmtTruthy (mkCol "name").formatter = none ∧
    lookupv (processCol escRec 0 ([], escRec.attrs) (mkCol "name")).1
      (tokenOf (mkCol "name")) = some "&lt;b&gt;" := by
  refine ⟨rfl, ?_⟩
  have h := (allowHTML_escaping (mkCol "name") escRec 0
    ([], escRec.attrs) rfl).2 rfl
  rw [h.1]
  decide

/-- C8: in the node-formatter pass, the cell of a `nodeFormatter` column
keeps the content the formatter injected, and its Node is purged from
the Node cache exactly when the formatter returned strictly `false`; any
other return value (including `undefined`) retains the Node, with no
other action taken. -/
theorem nodeFormatter_false_releases
    (cols : List ColDesc) (data : List Record)
    (tbody : List (List CellNode)) (i j : Nat) (record : Record)
    (row : List CellNode) (cell : CellNode) (col : ColDesc) (nf : NodeFmt)
    (hrec : data.get? i = some record) (hrow : tbody.get? i = some row)
    (hcell : row.get? j = some cell) (hcol : cols.get? j = some col)
    (hnf : col.nodeFormatter = some nf) :
    ((applyNodeFormatters cols data tbody).get? i).bind
        (fun r => r.get? j) =
      some { content := (nf (mkNFCtx col record i cell)).2,
             inCache :=
               if (nf (mkNFCtx col record i cell)).1 = .bool false then
                 false
               else cell.inCache } ∧
    ((nf (mkNFCtx col record i cell)).1 = .bool false →
      (((applyNodeFormatters cols data tbody).get? i).bind
          (fun r => r.get? j)).map CellNode.inCache = some false) ∧
    ((nf (mkNFCtx col record i cell)).1 ≠ .bool false →
      ((applyNodeFormatters cols data tbody).get? i).bind
          (fun r => r.get? j) =
        some { content := (nf (mkNFCtx col record i cell)).2,
               inCache := cell.inCache }) := by
  have hmain : ((applyNodeFormatters cols data tbody).get? i).bind
      (fun r => r.get? j) = some (applyNFCell col record i cell) := by
    unfold applyNodeFormatters
    rw [eachIdx_get?]
    simp only [Nat.zero_add]
    rw [hrow]
    simp only [Option.map_some', Option.some_bind]
    rw [hrec, eachIdx_get?]
    simp only [Nat.zero_add]
    rw [hcell]
    simp only [Option.map_some']
    rw [hcol]
  have hform : applyNFCell col record i cell =
      { content := (nf (mkNFCtx col record i cell)).2,
        inCache :=
          if (nf (mkNFCtx col record i cell)).1 = .bool false then false
          else cell.inCache } := by
    unfold applyNFCell
    rw [hnf]
    by_cases h : (nf (mkNFCtx col record i cell)).1 = .bool false <;>
      simp [h]
  refine ⟨by rw [hmain, hform], ?_, ?_⟩
  · intro h
    rw [hmain, hform]
    simp [h]
  · intro h
    rw [hmain, hform]
    simp [h]

/-- C8 witness: a formatter returning strictly `false` leaves the
injected content in place and releases the Node from the cache. -/
theorem nodeFormatter_false_releases_witness :
    nfCol.nodeFormatter = some nf0 ∧
    ((applyNodeFormatters [nfCol] [annRec]
        [[{ content := "X", inCache := true }]]).get? 0).bind
      (fun r => r.get? 0) =
      some { content := "X", inCache := false } := by
  refine ⟨rfl, ?_⟩
  have h := (nodeFormatter_false_releases [nfCol] [annRec]
    [[{ content := "X", inCache := true }]] 0 0 annRec
    [{ content := "X", inCache := true }]
    { content := "X", inCache := true } nfCol nf0
    rfl rfl rfl rfl rfl).1
  rw [h]
  decide

/-- C10: a column declaring both a `formatter` and a `nodeFormatter`
still has its callable formatter invoked by the bulk pass for every
record — the shared attribute map after the column is exactly the map
the formatter returned, so its side effects are visible to later
columns — even though the column's placeholders are absent from the row
template, so the formatter's resulting cell value never appears in the
rendered markup (substituting any value for its token leaves the row
unchanged). -/
theorem formatter_runs_despite_nodeFormatter (b : BodyView)
    (model : Record) (index i : Nat) (col : ColDesc)
    (f : FmtCtx → JSVal × FmtCtx)
    (hcol : b.columns.get? i = some col)
    (hf : col.formatter = some (.fn f))
    (_hnf : col.nodeFormatter.isSome = true)
    (htok : tokenOf col ∉ scanPH b.rowTemplate.data) :
    (rowValuesPrefix b model index (i + 1)).2 =
      (f (mkFmtCtx col (rowValuesPrefix b model index i).2 model
        index)).2.data ∧
    ∀ v : String,
      fromTemplate b.rowTemplate
        (lookupv (setv (rowValues b model index).1 (tokenOf col) v)) =
      createRowHTML b model index := by
  constructor
  · have hg : b.columns[i]? = some col := by
      rw [← List.get?_eq_getElem?]
      exact hcol
    have hft : fmtTruthy col.formatter = some (.fn f) := by
      rw [hf]
      rfl
    rw [rowValuesPrefix, List.take_succ, hg]
    simp only [Option.toList_some, List.foldl_append, List.foldl_cons,
      List.foldl_nil]
    simp only [processCol, hft]
    rfl
  · intro v
    unfold createRowHTML
    apply fromTemplate_agree
    intro nm hnm
    have hne : ¬ (tokenOf col = nm) := fun h => htok (h ▸ hnm)
    rw [lookupv_setv, if_neg hne]

/-- The both-formatters fixture: returns a value and mutates the shared
attribute map. -/
def seFn : FmtCtx → JSVal × FmtCtx := fun o =>
  (JSVal.str "SECRET",
    { o with data := jsSet o.data "seen" (JSVal.str "yes") })

/-- A column with both a formatter and a nodeFormatter. -/
def seCol : ColDesc :=
  { mkCol "tag" with formatter := some (.fn seFn), nodeFormatter := some nf0 }

/-- The view over `seCol` and a trailing `seen` column, pre-template. -/
def bvSEBase : BodyView :=
  { bv0 with
      modelList := some [annRec]
      columns := [seCol, mkCol "seen"] }

/-- The same view after the template build. -/
def bvSE : BodyView :=
  { bvSEBase with
      rowTemplate := (createRowTemplate bvSEBase.cls bvSEBase.columns).1
      columns := (createRowTemplate bvSEBase.cls bvSEBase.columns).2 }

/-- The annotated both-formatters column inside `bvSE`. -/
def seColR : ColDesc := { seCol with renderToken := some "tag" }

set_option maxRecDepth 8192 in
/-- C10 witness: the formatter's mutation of the shared map is visible
(the later `seen` column renders `yes`), while the rendered row is
independent of the value computed for the both-formatters column. -/
theorem formatter_runs_despite_nodeFormatter_witness :
    bvSE.columns.get? 0 = some seColR ∧
    (tokenOf seColR ∉ scanPH bvSE.rowTemplate.data) ∧
    lookupv (rowValues bvSE annRec 0).1 "seen" = some "yes" ∧
    ∀ v : String,
      fromTemplate bvSE.rowTemplate
        (lookupv (setv (rowValues bvSE annRec 0).1 (tokenOf seColR) v)) =
      createRowHTML bvSE annRec 0 := by
  refine ⟨rfl, by decide, by decide, ?_⟩
  exact (formatter_runs_despite_nodeFormatter bvSE annRec 0 0 seColR seFn
    rfl rfl rfl (by decide)).2

end DTBody
